import Mathlib

/-!
Verification development for the Blossom agent framework.

We shallowly embed the core of the repository:
  * `src/graph/state_manager.py` (class `StateManager`): a versioned state
    store backed by two SQLite tables, `agent_states` (primary key
    `agent_id`) and `state_history` (append-only, `AUTOINCREMENT` rowid).
    A full table scan without `ORDER BY` returns rows in rowid order, so
    the history table is modelled as a list in insertion order.
  * `src/data/cache.py` (class `EngagementCache`): an expiring key-value
    cache table with primary key `key`.
  * `src/utils/agent_manager.py` (class `AgentManager`): an in-memory
    registry (`self.agents`, an insertion-ordered dict) plus an active set.

Times are modelled as naturals; a JSON-decoded state blob is modelled as a
flat association list from string keys to natural values (the store never
interprets blobs, and `json.loads (json.dumps d)` is the identity on such
mappings).  Python exceptions are modelled as explicit error values; a
method that can raise returns the error alongside the (unchanged) state it
left behind.
-/

namespace Blossom

/-- A JSON-decoded flat state mapping, as handled by
`StateManager.compare_states`. -/
abbrev Dict := List (String × Nat)

/-- One row of either the `agent_states` or the `state_history` table. -/
structure SMRow where
  agent_id : String
  state : Dict
  timestamp : Nat
  version : Nat
deriving DecidableEq

/-- The persistent state of `StateManager`: the `agent_states` table
(`agent_id` is the primary key) and the `state_history` table in rowid
(insertion) order. -/
structure StateManager where
  currents : List SMRow
  history : List SMRow
deriving DecidableEq

/-- A freshly initialised database: both tables empty. -/
def StateManager.empty : StateManager := ⟨[], []⟩

/-- `SELECT ... FROM agent_states WHERE agent_id = ?` (at most one row,
`agent_id` being the primary key). -/
def StateManager.findCurrent (sm : StateManager) (id : String) : Option SMRow :=
  sm.currents.find? (fun r => r.agent_id == id)

/-- `StateManager.save_state`: reads the current version for `agent_id`
(defaulting to 0), writes version+1 both as the current row
(`INSERT OR REPLACE`) and as a fresh history row. -/
def StateManager.save_state (sm : StateManager) (id : String) (st : Dict)
    (now : Nat) : StateManager :=
  let version : Nat :=
    match sm.findCurrent id with
    | some r => r.version + 1
    | none => 1
  let row : SMRow := ⟨id, st, now, version⟩
  { currents := sm.currents.filter (fun r => !(r.agent_id == id)) ++ [row],
    history := sm.history ++ [row] }

/-- `StateManager.load_state`: the state column of the current row, or
`None` when the agent was never saved. -/
def StateManager.load_state (sm : StateManager) (id : String) : Option Dict :=
  (sm.findCurrent id).map (·.state)

/-- The history rows of one agent, in insertion order. -/
def StateManager.historyFor (sm : StateManager) (id : String) : List SMRow :=
  sm.history.filter (fun r => r.agent_id == id)

/-- The versions recorded in one agent's history, in insertion order. -/
def StateManager.versionsFor (sm : StateManager) (id : String) : List Nat :=
  (sm.historyFor id).map (·.version)

/-- The result dictionary built by `StateManager.compare_states` when it
finds exactly two rows. -/
structure DiffResult where
  added : List (String × Nat)
  removed : List (String × Nat)
  modified : List (String × Nat × Nat)
deriving DecidableEq

/-- The key-by-key comparison loop of `StateManager.compare_states`:
iterate over the union of the key sets, classifying each key as added
(absent from `state1`), removed (absent from `state2`) or modified
(present in both with different values). -/
def diffStates (state1 state2 : Dict) : DiffResult :=
  let keys := (state1.map Prod.fst ++ state2.map Prod.fst).dedup
  { added := keys.filterMap (fun k =>
      match state1.lookup k with
      | some _ => none
      | none => (state2.lookup k).map (fun v => (k, v))),
    removed := keys.filterMap (fun k =>
      match state2.lookup k with
      | some _ => none
      | none => (state1.lookup k).map (fun v => (k, v))),
    modified := keys.filterMap (fun k =>
      match state1.lookup k, state2.lookup k with
      | some v1, some v2 => if v1 ≠ v2 then some (k, v1, v2) else none
      | _, _ => none) }

/-- `StateManager.compare_states`: fetches the history rows matching
`agent_id = ? AND version IN (?, ?)` (a full scan, hence insertion
order), returns the empty dictionary (`none`) unless exactly two rows
come back, and otherwise diffs `states[0]` against `states[1]`. -/
def StateManager.compare_states (sm : StateManager) (id : String)
    (v1 v2 : Nat) : Option DiffResult :=
  match sm.history.filter
      (fun r => r.agent_id == id && (r.version == v1 || r.version == v2)) with
  | [r1, r2] => some (diffStates r1.state r2.state)
  | _ => none

/-- `StateManager.clear_history`: with a cutoff, deletes the agent's
history rows with `timestamp < before`; without one, deletes all of the
agent's history rows.  The `agent_states` table is untouched. -/
def StateManager.clear_history (sm : StateManager) (id : String)
    (before : Option Nat) : StateManager :=
  { sm with
    history := sm.history.filter (fun r =>
      !(r.agent_id == id &&
        (match before with
         | some t => decide (r.timestamp < t)
         | none => true))) }

/-- A finite sequence of `save_state` calls for one agent, each with its
blob and wall-clock timestamp. -/
def StateManager.applySaves (sm : StateManager) (id : String)
    (saves : List (Dict × Nat)) : StateManager :=
  saves.foldl (fun s p => s.save_state id p.1 p.2) sm

lemma applySaves_concat (sm : StateManager) (id : String)
    (saves : List (Dict × Nat)) (p : Dict × Nat) :
    sm.applySaves id (saves ++ [p]) = (sm.applySaves id saves).save_state id p.1 p.2 := by
  simp [StateManager.applySaves]

lemma find?_filter_not (l : List SMRow) (id : String) :
    (l.filter (fun r => !(r.agent_id == id))).find? (fun r => r.agent_id == id) = none := by
  rw [List.find?_eq_none]
  intro x hx
  have hmem := (List.mem_filter.mp hx).2
  simp only [Bool.not_eq_true', beq_eq_false_iff_ne, ne_eq] at hmem
  simp [hmem]

lemma findCurrent_save (sm : StateManager) (id : String) (st : Dict) (now : Nat) :
    (sm.save_state id st now).findCurrent id =
      some ⟨id, st, now,
        match sm.findCurrent id with
        | some r => r.version + 1
        | none => 1⟩ := by
  unfold StateManager.save_state StateManager.findCurrent
  simp only [List.find?_append, find?_filter_not, Option.none_or]
  simp [List.find?]

lemma applySaves_empty_spec (id : String) (saves : List (Dict × Nat)) :
    ((StateManager.empty.applySaves id saves).findCurrent id).map (·.version)
        = (if saves.length = 0 then none else some saves.length)
    ∧ (StateManager.empty.applySaves id saves).versionsFor id = List.range' 1 saves.length
    ∧ (StateManager.empty.applySaves id saves).load_state id = (saves.map Prod.fst).getLast? := by
  induction saves using List.reverseRecOn with
  | nil =>
    refine ⟨?_, ?_, ?_⟩ <;>
      simp [StateManager.applySaves, StateManager.empty, StateManager.findCurrent,
        StateManager.versionsFor, StateManager.historyFor, StateManager.load_state]
  | append_singleton saves p ih =>
    obtain ⟨ih1, ih2, ih3⟩ := ih
    rw [applySaves_concat]
    set sm := StateManager.empty.applySaves id saves with hsm
    have hver :
        (match sm.findCurrent id with
         | some r => r.version + 1
         | none => 1) = saves.length + 1 := by
      rcases hfc : sm.findCurrent id with _ | r
      · rw [hfc] at ih1
        simp only [Option.map_none'] at ih1
        by_cases h0 : saves.length = 0
        · simp [h0]
        · rw [if_neg h0] at ih1
          exact absurd ih1.symm (by simp)
      · rw [hfc] at ih1
        simp only [Option.map_some'] at ih1
        by_cases h0 : saves.length = 0
        · rw [if_pos h0] at ih1
          exact absurd ih1 (by simp)
        · rw [if_neg h0] at ih1
          simp only [Option.some.injEq] at ih1
          simp [ih1]
    refine ⟨?_, ?_, ?_⟩
    · rw [findCurrent_save]
      simp [hver]
    · show (sm.save_state id p.1 p.2).versionsFor id = _
      unfold StateManager.versionsFor StateManager.historyFor StateManager.save_state
      simp only [List.filter_append, List.map_append]
      have hrow : (List.filter (fun r => r.agent_id == id)
          [(⟨id, p.1, p.2,
             match sm.findCurrent id with
             | some r => r.version + 1
             | none => 1⟩ : SMRow)]) =
          [⟨id, p.1, p.2,
             match sm.findCurrent id with
             | some r => r.version + 1
             | none => 1⟩] := by
        simp [List.filter]
      rw [hrow]
      have hleft : List.map (fun r => r.version)
          (List.filter (fun r => r.agent_id == id) sm.history) = List.range' 1 saves.length := ih2
      simp only [List.map]
      rw [hleft, hver, List.length_append, List.length_singleton, List.range'_concat]
      simp [Nat.add_comm]
    · show (sm.save_state id p.1 p.2).load_state id = _
      unfold StateManager.load_state
      rw [findCurrent_save]
      simp

/-- Claim C1: for every agent identity, after any finite sequence of
successful `save_state` calls for that identity starting from an empty
store, the recorded history versions are exactly 1, 2, ..., n with no
gaps or reuse, and `load_state` returns the blob of the most recent
`save_state` call, being absent exactly when no save ever occurred. -/
theorem C1_versions_gapless_load_last (id : String) (saves : List (Dict × Nat)) :
    (StateManager.empty.applySaves id saves).versionsFor id = List.range' 1 saves.length
    ∧ (StateManager.empty.applySaves id saves).load_state id = (saves.map Prod.fst).getLast? :=
  ⟨(applySaves_empty_spec id saves).2.1, (applySaves_empty_spec id saves).2.2⟩

/-- A store reached by two saves for agent `"a"`: version 1 holds
`{"x": 1}` and version 2 holds `{"x": 1, "y": 2}`. -/
def smC3 : StateManager :=
  StateManager.empty.applySaves "a" [([("x", 1)], 0), ([("x", 1), ("y", 2)], 1)]

/-- Claim C3 counterexample: with versions 1 and 2 both present for
agent `"a"`, the added keys of `compare_states "a" 1 2` are `["y"]`
while the removed keys of `compare_states "a" 2 1` are `[]`: the query
`version IN (?, ?)` returns rows in insertion order whichever way the
arguments are passed, so anti-symmetry fails. -/
theorem C3_counterexample :
    (1 ∈ smC3.versionsFor "a" ∧ 2 ∈ smC3.versionsFor "a") ∧
    ¬ ((smC3.compare_states "a" 1 2).map (fun d => d.added.map Prod.fst)
        = (smC3.compare_states "a" 2 1).map (fun d => d.removed.map Prod.fst)) := by
  decide

/-- Claim C3 (amended): `compare_states` is symmetric in its two version
arguments — swapping them returns the identical diff, because the rows
are fetched in table order regardless of the argument order. -/
theorem C3_diff_symmetric (sm : StateManager) (id : String) (v1 v2 : Nat) :
    sm.compare_states id v1 v2 = sm.compare_states id v2 v1 := by
  unfold StateManager.compare_states
  have hflt : sm.history.filter
        (fun r => r.agent_id == id && (r.version == v1 || r.version == v2))
      = sm.history.filter
        (fun r => r.agent_id == id && (r.version == v2 || r.version == v1)) := by
    apply List.filter_congr
    intro x _
    rw [Bool.or_comm]
  rw [hflt]

lemma compare_states_len_ne_two (sm : StateManager) (id : String) (v1 v2 : Nat)
    (h : (sm.history.filter
      (fun r => r.agent_id == id && (r.version == v1 || r.version == v2))).length ≠ 2) :
    sm.compare_states id v1 v2 = none := by
  unfold StateManager.compare_states
  split
  · rename_i r1 r2 heq
    rw [heq] at h
    simp at h
  · rfl

lemma length_le_one_of_const {l : List Nat} {a : Nat}
    (hnd : l.Nodup) (h : ∀ x ∈ l, x = a) : l.length ≤ 1 := by
  match l, hnd, h with
  | [], _, _ => simp
  | [x], _, _ => simp
  | x :: y :: t, hnd, h =>
    exfalso
    have hx : x = a := h x (by simp)
    have hy : y = a := h y (by simp)
    have hni : x ∉ y :: t := (List.nodup_cons.mp hnd).1
    exact hni (by simp [hx, hy])

lemma compare_filter_as_historyFor (sm : StateManager) (id : String) (v1 v2 : Nat) :
    sm.history.filter (fun r => r.agent_id == id && (r.version == v1 || r.version == v2))
      = (sm.historyFor id).filter (fun r => r.version == v1 || r.version == v2) := by
  unfold StateManager.historyFor
  rw [List.filter_filter]
  apply List.filter_congr
  intro x _
  rw [Bool.and_comm]

lemma compare_filter_version_mem (sm : StateManager) (id : String) (v1 v2 : Nat) :
    ∀ x ∈ (sm.history.filter
        (fun r => r.agent_id == id && (r.version == v1 || r.version == v2))).map
          (fun r => r.version),
      (x = v1 ∨ x = v2) ∧ x ∈ sm.versionsFor id := by
  intro x hx
  rw [compare_filter_as_historyFor] at hx
  obtain ⟨r, hr, hrx⟩ := List.mem_map.mp hx
  have hrmem := List.mem_filter.mp hr
  have hpred := hrmem.2
  simp only [Bool.or_eq_true, beq_iff_eq] at hpred
  subst hrx
  refine ⟨hpred, ?_⟩
  exact List.mem_map.mpr ⟨r, hrmem.1, rfl⟩

lemma compare_filter_version_nodup (sm : StateManager) (id : String) (v1 v2 : Nat)
    (hnd : (sm.versionsFor id).Nodup) :
    ((sm.history.filter
        (fun r => r.agent_id == id && (r.version == v1 || r.version == v2))).map
          (fun r => r.version)).Nodup := by
  rw [compare_filter_as_historyFor]
  exact hnd.sublist ((List.filter_sublist _).map _)

/-- Claim C6 (amended): when either requested version is absent from the
identity's history (whose versions are distinct), `compare_states`
returns the empty dictionary — it does not raise any `VersionNotFound`
error, which in fact exists nowhere in the code. -/
theorem C6_missing_version_empty_dict (sm : StateManager) (id : String) (v1 v2 : Nat)
    (hnd : (sm.versionsFor id).Nodup)
    (habs : v1 ∉ sm.versionsFor id ∨ v2 ∉ sm.versionsFor id) :
    sm.compare_states id v1 v2 = none := by
  apply compare_states_len_ne_two
  have hmem := compare_filter_version_mem sm id v1 v2
  have hnodup := compare_filter_version_nodup sm id v1 v2 hnd
  have hlen : ((sm.history.filter
      (fun r => r.agent_id == id && (r.version == v1 || r.version == v2))).map
        (fun r => r.version)).length ≤ 1 := by
    rcases habs with h1 | h2
    · refine length_le_one_of_const (a := v2) hnodup (fun x hx => ?_)
      rcases hmem x hx with ⟨hv, hin⟩
      rcases hv with h | h
      · exact absurd (h ▸ hin) h1
      · exact h
    · refine length_le_one_of_const (a := v1) hnodup (fun x hx => ?_)
      rcases hmem x hx with ⟨hv, hin⟩
      rcases hv with h | h
      · exact h
      · exact absurd (h ▸ hin) h2
  rw [List.length_map] at hlen
  omega

/-- A store with a single saved version for agent `"a"`, used to witness
the missing-version behaviour of `compare_states`. -/
def smC6 : StateManager :=
  StateManager.empty.applySaves "a" [([("x", 1)], 0)]

/-- Claim C6 counterexample: version 5 was never saved for agent `"a"`,
yet `compare_states "a" 1 5` returns normally with the empty dictionary
`{}` — nothing is raised, and no `VersionNotFound` error exists anywhere
in the code. -/
theorem C6_counterexample :
    5 ∉ smC6.versionsFor "a" ∧ smC6.compare_states "a" 1 5 = none := by
  decide

/-- Witness for the amended claim C6 at a concrete store: version 5 was
never saved, and the diff of versions 1 and 5 is the empty dictionary. -/
theorem C6_missing_version_witness : smC6.compare_states "a" 1 5 = none :=
  C6_missing_version_empty_dict smC6 "a" 1 5 (by decide) (by decide)

/-- Claim C7 counterexample: version 1 is present for agent `"a"`, yet
`compare_states "a" 1 1` returns the empty dictionary `{}` (no `added`,
`removed` or `modified` components at all): `version IN (1, 1)` matches
a single row, so the length-2 check fails. -/
theorem C7_counterexample :
    1 ∈ smC3.versionsFor "a" ∧
    smC3.compare_states "a" 1 1 ≠ some ⟨[], [], []⟩ ∧
    smC3.compare_states "a" 1 1 = none := by
  decide

/-- Claim C7 (amended): for a version present in the identity's history
(whose versions are distinct), `compare_states id v v` returns the empty
dictionary with no `added`, `removed` or `modified` components, because
only one history row matches `version IN (v, v)`. -/
theorem C7_same_version_empty_dict (sm : StateManager) (id : String) (v : Nat)
    (hnd : (sm.versionsFor id).Nodup) (hv : v ∈ sm.versionsFor id) :
    sm.compare_states id v v = none := by
  apply compare_states_len_ne_two
  have hmem := compare_filter_version_mem sm id v v
  have hnodup := compare_filter_version_nodup sm id v v hnd
  have hlen := length_le_one_of_const hnodup
    (fun x hx => (hmem x hx).1.elim (fun h => h) (fun h => h))
  rw [List.length_map] at hlen
  omega

/-- A store with two saved versions for agent `"a"`, used to witness the
same-version behaviour of `compare_states`. -/
def smC7 : StateManager :=
  StateManager.empty.applySaves "a" [([("x", 1)], 0), ([("x", 3)], 1)]

/-- Witness for the amended claim C7 at a concrete store: version 2 is
present and the diff of version 2 with itself is the empty dictionary. -/
theorem C7_same_version_witness : smC7.compare_states "a" 2 2 = none :=
  C7_same_version_empty_dict smC7 "a" 2 (by decide) (by decide)

/-- Claim C9: `clear_history` deletes exactly the history rows of the
given identity older than the cutoff (all its history rows when no
cutoff is given), never touches the `agent_states` table, and therefore
`load_state` is unchanged by any prune, for every identity. -/
theorem C9_prune_frame (sm : StateManager) (id aid : String) (before : Option Nat)
    (t : Nat) (r : SMRow) :
    (sm.clear_history id before).load_state aid = sm.load_state aid
    ∧ (sm.clear_history id before).currents = sm.currents
    ∧ (r ∈ (sm.clear_history id (some t)).history ↔
        r ∈ sm.history ∧ ¬(r.agent_id = id ∧ r.timestamp < t))
    ∧ (r ∈ (sm.clear_history id none).history ↔
        r ∈ sm.history ∧ r.agent_id ≠ id) := by
  refine ⟨rfl, rfl, ?_, ?_⟩
  · simp only [StateManager.clear_history, List.mem_filter]
    constructor
    · rintro ⟨hmem, hp⟩
      refine ⟨hmem, ?_⟩
      simp only [Bool.not_eq_true', Bool.and_eq_false_iff, beq_eq_false_iff_ne, ne_eq,
        decide_eq_false_iff_not, Nat.not_lt] at hp
      rcases hp with h | h
      · exact fun hc => absurd hc.1 h
      · exact fun hc => absurd hc.2 (by omega)
    · rintro ⟨hmem, hp⟩
      refine ⟨hmem, ?_⟩
      simp only [Bool.not_eq_true', Bool.and_eq_false_iff, beq_eq_false_iff_ne, ne_eq,
        decide_eq_false_iff_not, Nat.not_lt]
      by_cases hid : r.agent_id = id
      · exact Or.inr (Nat.le_of_not_lt (fun hlt => hp ⟨hid, hlt⟩))
      · exact Or.inl hid
  · simp [StateManager.clear_history, List.mem_filter]

/-- One row of the `engagement_cache` table (the key lives alongside in
the association list, `key` being the primary key). -/
structure CacheRow where
  value : Nat
  timestamp : Nat
  expiry : Nat
deriving DecidableEq

/-- The `engagement_cache` table: at most one row per key, modelled as an
association list. -/
abbrev Cache := List (String × CacheRow)

/-- The effective time-to-live computed by `EngagementCache.set`: the
Python expression `expiry or self.cache_duration` falls back to the
configured duration when `expiry` is `None` or `0`. -/
def ttlOf (cache_duration : Nat) (expiry : Option Nat) : Nat :=
  match expiry with
  | none => cache_duration
  | some e => if e = 0 then cache_duration else e

/-- `EngagementCache.set`: `INSERT OR REPLACE` of the row for `key`, with
`expiry` column `now + (expiry or cache_duration)`. -/
def EngagementCache.set (c : Cache) (cache_duration : Nat) (key : String)
    (value : Nat) (expiry : Option Nat) (now : Nat) : Cache :=
  c.filter (fun p => !(p.1 == key)) ++
    [(key, ⟨value, now, now + ttlOf cache_duration expiry⟩)]

/-- `EngagementCache.get`: selects the row for `key` whose expiry is
still strictly in the future (`datetime('now') < datetime(expiry)`),
returning its value, or `None` when no such row exists. -/
def EngagementCache.get (c : Cache) (key : String) (now : Nat) : Option Nat :=
  (c.find? (fun p => p.1 == key && decide (now < p.2.expiry))).map (fun p => p.2.value)

/-- `EngagementCache.clear_expired`: deletes every row with
`datetime('now') >= datetime(expiry)`. -/
def EngagementCache.clear_expired (c : Cache) (now : Nat) : Cache :=
  c.filter (fun p => !(decide (p.2.expiry ≤ now)))

lemma cache_find?_filter_not (c : Cache) (key : String) (q : String × CacheRow → Bool) :
    ((c.filter (fun p => !(p.1 == key))).find?
      (fun p => p.1 == key && q p)) = none := by
  rw [List.find?_eq_none]
  intro x hx
  have hmem := (List.mem_filter.mp hx).2
  simp only [Bool.not_eq_true', beq_eq_false_iff_ne, ne_eq] at hmem
  simp [hmem]

lemma cache_get_set (c : Cache) (cd : Nat) (k : String) (v : Nat)
    (e : Option Nat) (now t : Nat) :
    EngagementCache.get (EngagementCache.set c cd k v e now) k t =
      if t < now + ttlOf cd e then some v else none := by
  unfold EngagementCache.get EngagementCache.set
  rw [List.find?_append, cache_find?_filter_not, Option.none_or]
  by_cases h : t < now + ttlOf cd e
  · simp [List.find?, h]
  · simp [List.find?, h]

lemma cache_get_clear_expired_set (c : Cache) (cd : Nat) (k : String) (v : Nat)
    (e : Option Nat) (now t t0 : Nat) (h : now + ttlOf cd e ≤ t) :
    EngagementCache.get
      (EngagementCache.clear_expired (EngagementCache.set c cd k v e now) t0) k t = none := by
  unfold EngagementCache.get EngagementCache.clear_expired EngagementCache.set
  rw [List.filter_append, List.find?_append]
  rw [List.filter_filter]
  have h1 : ((c.filter (fun a => !(decide (a.2.expiry ≤ t0)) && !(a.1 == k))).find?
      (fun p => p.1 == k && decide (t < p.2.expiry))) = none := by
    rw [List.find?_eq_none]
    intro x hx
    have hmem := (List.mem_filter.mp hx).2
    simp only [Bool.and_eq_true, Bool.not_eq_true', beq_eq_false_iff_ne, ne_eq] at hmem
    simp [hmem.2]
  rw [h1, Option.none_or]
  have h2 : ¬(t < now + ttlOf cd e) := Nat.not_lt.mpr h
  by_cases h3 : now + ttlOf cd e ≤ t0
  · simp [List.filter, h3]
  · simp [List.filter, List.find?, h3, h2]

/-- Claim C4: a cache `get` at or after the entry's stored expiry time
returns `None`, whether or not `clear_expired` has run; a `get` strictly
before the expiry time returns the value most recently `set` for that
key (the row for a key is replaced wholesale by `set`). -/
theorem C4_cache_expiry (c : Cache) (cd : Nat) (k : String) (v : Nat)
    (e : Option Nat) (now t t0 : Nat) :
    (now + ttlOf cd e ≤ t →
      EngagementCache.get (EngagementCache.set c cd k v e now) k t = none ∧
      EngagementCache.get
        (EngagementCache.clear_expired (EngagementCache.set c cd k v e now) t0) k t = none)
    ∧ (t < now + ttlOf cd e →
      EngagementCache.get (EngagementCache.set c cd k v e now) k t = some v) := by
  constructor
  · intro h
    refine ⟨?_, cache_get_clear_expired_set c cd k v e now t t0 h⟩
    rw [cache_get_set, if_neg (Nat.not_lt.mpr h)]
  · intro h
    rw [cache_get_set, if_pos h]

/-- Witness for claim C4, mirroring the spec's example with a 1-second
ttl: the value is still there strictly before expiry and absent two
seconds later, also after an explicit purge. -/
theorem C4_cache_expiry_witness :
    EngagementCache.get (EngagementCache.set [] 3600 "k" 7 (some 1) 10) "k" 12 = none ∧
    EngagementCache.get
      (EngagementCache.clear_expired
        (EngagementCache.set [] 3600 "k" 7 (some 1) 10) 12) "k" 12 = none ∧
    EngagementCache.get (EngagementCache.set [] 3600 "k" 7 (some 1) 10) "k" 10 = some 7 := by
  refine ⟨?_, ?_, ?_⟩
  · exact ((C4_cache_expiry [] 3600 "k" 7 (some 1) 10 12 12).1 (by decide)).1
  · exact ((C4_cache_expiry [] 3600 "k" 7 (some 1) 10 12 12).1 (by decide)).2
  · exact (C4_cache_expiry [] 3600 "k" 7 (some 1) 10 10 0).2 (by decide)

/-- An agent as the manager sees it: whether its `initialize()` and
`cleanup()` coroutines succeed or raise, and the opaque state returned
by its `get_state()`. -/
structure Agent where
  initOk : Bool
  cleanupOk : Bool
  state : Nat
deriving DecidableEq

/-- The in-memory state of `AgentManager`: the registry `self.agents`
(a dict, hence an insertion-ordered association list with distinct keys)
and the active set `self.active_agents`. -/
structure AgentManager where
  agents : List (String × Agent)
  active : List String
deriving DecidableEq

/-- The Python exceptions the manager's lifecycle methods can let
escape. -/
inductive MgrErr where
  | valueError
  | keyError
  | initFailed
  | cleanupFailed
deriving DecidableEq

/-- `self.active_agents.add(id)` on a set: no duplicate is created. -/
def activeAdd (l : List String) (id : String) : List String :=
  if id ∈ l then l else l ++ [id]

/-- `AgentManager.start_agent`: raises `ValueError` for an unregistered
identity, otherwise always awaits `agent.initialize()` (there is no
already-active check) and, when that returns, adds the identity to the
active set.  The first component lists the agents whose `initialize()`
was invoked during the call; the returned manager is the state the
method left behind (unchanged when an exception escapes). -/
def AgentManager.start_agent (m : AgentManager) (id : String) :
    List String × AgentManager × Option MgrErr :=
  match m.agents.lookup id with
  | none => ([], m, some .valueError)
  | some a =>
    if a.initOk then ([id], { m with active := activeAdd m.active id }, none)
    else ([id], m, some .initFailed)

/-- `AgentManager.stop_agent`: returns silently for an inactive
identity, otherwise awaits `agent.cleanup()` and, only when that
returns, removes the identity from the active set.  The first component
lists the agents whose `cleanup()` was invoked during the call. -/
def AgentManager.stop_agent (m : AgentManager) (id : String) :
    List String × AgentManager × Option MgrErr :=
  if id ∈ m.active then
    match m.agents.lookup id with
    | none => ([], m, some .keyError)
    | some a =>
      if a.cleanupOk then ([id], { m with active := m.active.erase id }, none)
      else ([id], m, some .cleanupFailed)
  else ([], m, none)

/-- The `for agent_id in ...: await self.start_agent(agent_id)` loop of
`AgentManager.start_agents`: an uncaught exception aborts the loop. -/
def AgentManager.start_list (m : AgentManager) :
    List String → List String × AgentManager × Option MgrErr
  | [] => ([], m, none)
  | id :: rest =>
    match m.start_agent id with
    | (log, m1, some e) => (log, m1, some e)
    | (log, m1, none) =>
      let r := m1.start_list rest
      (log ++ r.1, r.2.1, r.2.2)

/-- `AgentManager.start_agents`: iterates over the registry keys in
insertion order. -/
def AgentManager.start_agents (m : AgentManager) :
    List String × AgentManager × Option MgrErr :=
  m.start_list (m.agents.map Prod.fst)

/-- The `for agent_id in list(self.active_agents): await
self.stop_agent(agent_id)` loop of `AgentManager.stop_agents`: an
uncaught exception aborts the loop. -/
def AgentManager.stop_list (m : AgentManager) :
    List String → List String × AgentManager × Option MgrErr
  | [] => ([], m, none)
  | id :: rest =>
    match m.stop_agent id with
    | (log, m1, some e) => (log, m1, some e)
    | (log, m1, none) =>
      let r := m1.stop_list rest
      (log ++ r.1, r.2.1, r.2.2)

/-- `AgentManager.stop_agents`: iterates over a snapshot of the active
set. -/
def AgentManager.stop_agents (m : AgentManager) :
    List String × AgentManager × Option MgrErr :=
  m.stop_list m.active

/-- `AgentManager.get_states`: builds `{agent_id: await agent.get_state()
for agent_id, agent in self.agents.items()}` — it iterates over the full
registry, not over the active set. -/
def AgentManager.get_states (m : AgentManager) : List (String × Nat) :=
  m.agents.map (fun p => (p.1, p.2.state))

lemma lookup_of_mem_nodup {l : List (String × Agent)} {k : String} {a : Agent}
    (hnd : (l.map Prod.fst).Nodup) (h : (k, a) ∈ l) : l.lookup k = some a := by
  induction l with
  | nil => cases h
  | cons p t ih =>
    rcases List.mem_cons.mp h with heq | hmem
    · rw [← heq]
      simp [List.lookup]
    · have hk : k ≠ p.1 := by
        intro hkp
        have : p.1 ∈ t.map Prod.fst :=
          List.mem_map.mpr ⟨(k, a), hmem, by rw [hkp]⟩
        exact (List.nodup_cons.mp (by simpa using hnd)).1 this
      have hbeq : (k == p.1) = false := beq_eq_false_iff_ne.mpr hk
      rcases p with ⟨k1, a1⟩
      simp only [List.lookup, hbeq]
      exact ih (by simpa using (List.nodup_cons.mp (by simpa using hnd)).2) hmem

lemma start_agent_agents (m : AgentManager) (id : String) :
    (m.start_agent id).2.1.agents = m.agents := by
  unfold AgentManager.start_agent
  cases hl : m.agents.lookup id with
  | none => rfl
  | some a => by_cases h : a.initOk <;> simp [h]

lemma stop_agent_agents (m : AgentManager) (id : String) :
    (m.stop_agent id).2.1.agents = m.agents := by
  unfold AgentManager.stop_agent
  by_cases hact : id ∈ m.active
  · rw [if_pos hact]
    cases hl : m.agents.lookup id with
    | none => rfl
    | some a => by_cases h : a.cleanupOk <;> simp [h]
  · rw [if_neg hact]

lemma start_list_fail (preL : List (String × Agent)) :
    ∀ (m : AgentManager) (fid : String) (fa : Agent) (rest : List String),
    (∀ pa ∈ preL, m.agents.lookup pa.1 = some pa.2 ∧ pa.2.initOk = true) →
    m.agents.lookup fid = some fa → fa.initOk = false →
    (m.start_list (preL.map Prod.fst ++ fid :: rest)).1 = preL.map Prod.fst ++ [fid] ∧
    (m.start_list (preL.map Prod.fst ++ fid :: rest)).2.2 = some .initFailed := by
  induction preL with
  | nil =>
    intro m fid fa rest _ hfid hfa
    simp only [List.map_nil, List.nil_append]
    unfold AgentManager.start_list AgentManager.start_agent
    rw [hfid]
    simp [hfa]
  | cons pa preL ih =>
    intro m fid fa rest hpre hfid hfa
    obtain ⟨hlk, hok⟩ := hpre pa (by simp)
    simp only [List.map_cons, List.cons_append]
    unfold AgentManager.start_list
    have hsa : m.start_agent pa.1 =
        ([pa.1], { m with active := activeAdd m.active pa.1 }, none) := by
      unfold AgentManager.start_agent
      rw [hlk]
      simp [hok]
    rw [hsa]
    have hih := ih { m with active := activeAdd m.active pa.1 } fid fa rest
      (fun pb hb => hpre pb (by simp [hb])) hfid hfa
    dsimp only
    rw [hih.1, hih.2]
    exact ⟨rfl, rfl⟩

lemma stop_list_fail (pre : List String) :
    ∀ (m : AgentManager) (gid : String) (ga : Agent) (rest : List String),
    (pre ++ [gid]).Nodup →
    (∀ id ∈ pre, id ∈ m.active ∧ ∃ a, m.agents.lookup id = some a ∧ a.cleanupOk = true) →
    gid ∈ m.active → m.agents.lookup gid = some ga → ga.cleanupOk = false →
    (m.stop_list (pre ++ gid :: rest)).1 = pre ++ [gid] ∧
    (m.stop_list (pre ++ gid :: rest)).2.2 = some .cleanupFailed := by
  induction pre with
  | nil =>
    intro m gid ga rest _ _ hact hlk hko
    simp only [List.nil_append]
    unfold AgentManager.stop_list AgentManager.stop_agent
    rw [if_pos hact, hlk]
    simp [hko]
  | cons p pre ih =>
    intro m gid ga rest hnd hpre hact hlk hko
    have hnd2 : (p :: (pre ++ [gid])).Nodup := hnd
    have hnd' := List.nodup_cons.mp hnd2
    obtain ⟨hpact, a, halk, haok⟩ := hpre p (by simp)
    simp only [List.cons_append]
    unfold AgentManager.stop_list
    have hsa : m.stop_agent p =
        ([p], { m with active := m.active.erase p }, none) := by
      unfold AgentManager.stop_agent
      rw [if_pos hpact, halk]
      simp [haok]
    rw [hsa]
    have hih := ih { m with active := m.active.erase p } gid ga rest
      hnd'.2
      (fun q hq => by
        obtain ⟨hq1, b, hb1, hb2⟩ := hpre q (by simp [hq])
        have hqp : q ≠ p := by
          intro hqp
          exact hnd'.1 (by simp [← hqp, hq])
        exact ⟨(List.mem_erase_of_ne hqp).mpr hq1, b, hb1, hb2⟩)
      (by
        have hgp : gid ≠ p := by
          intro hgp
          exact hnd'.1 (by simp [← hgp])
        exact (List.mem_erase_of_ne hgp).mpr hact)
      hlk hko
    dsimp only
    rw [hih.1, hih.2]
    exact ⟨rfl, rfl⟩

/-- A registry whose first agent raises from both `initialize()` and
`cleanup()`, with a healthy second agent registered and active. -/
def mC2 : AgentManager :=
  { agents := [("a", ⟨false, false, 0⟩), ("b", ⟨true, true, 1⟩)],
    active := ["a", "b"] }

/-- Claim C2 counterexample: agent `"b"` is registered (and active), yet
after agent `"a"` raises, `start_agents` has only invoked
`initialize()` on `"a"` and `stop_agents` has only invoked `cleanup()`
on `"a"` — the loops have no exception handler, so the first failure
aborts the batch and `"b"` is never attempted. -/
theorem C2_counterexample :
    ("b" ∈ mC2.agents.map Prod.fst ∧ mC2.start_agents.1 = ["a"] ∧
      mC2.start_agents.2.2 = some .initFailed) ∧
    ("b" ∈ mC2.active ∧ mC2.stop_agents.1 = ["a"] ∧
      mC2.stop_agents.2.2 = some .cleanupFailed) := by
  decide

/-- Claim C2 (amended): `start_agents` and `stop_agents` are not
best-effort: the batch stops at the first agent whose `initialize()`
(resp. `cleanup()`) raises.  Every agent before the failing one in the
registry (resp. active set) is attempted, the failing agent's lifecycle
call is attempted, no later agent is attempted, and the exception
propagates out of the batch call. -/
theorem C2_batch_aborts_on_first_failure
    (m1 m2 : AgentManager) (preL postL : List (String × Agent)) (fid : String) (fa : Agent)
    (preA postA : List String) (gid : String) (ga : Agent)
    (h1 : m1.agents = preL ++ (fid, fa) :: postL)
    (hnd1 : (m1.agents.map Prod.fst).Nodup)
    (hpre1 : ∀ pa ∈ preL, pa.2.initOk = true)
    (hfa : fa.initOk = false)
    (h2 : m2.active = preA ++ gid :: postA)
    (hnd2 : m2.active.Nodup)
    (hpre2 : ∀ id ∈ preA, ∃ a, m2.agents.lookup id = some a ∧ a.cleanupOk = true)
    (hga : m2.agents.lookup gid = some ga)
    (hgac : ga.cleanupOk = false) :
    (m1.start_agents.1 = preL.map Prod.fst ++ [fid] ∧
      m1.start_agents.2.2 = some .initFailed) ∧
    (m2.stop_agents.1 = preA ++ [gid] ∧
      m2.stop_agents.2.2 = some .cleanupFailed) := by
  constructor
  · have hids : m1.agents.map Prod.fst = preL.map Prod.fst ++ fid :: postL.map Prod.fst := by
      rw [h1]
      simp
    have hlkpre : ∀ pa ∈ preL, m1.agents.lookup pa.1 = some pa.2 ∧ pa.2.initOk = true := by
      intro pa hpa
      refine ⟨?_, hpre1 pa hpa⟩
      have hmem : (pa.1, pa.2) ∈ m1.agents := by
        rw [h1]
        exact List.mem_append_left _ hpa
      exact lookup_of_mem_nodup hnd1 hmem
    have hlkf : m1.agents.lookup fid = some fa := by
      apply lookup_of_mem_nodup hnd1
      rw [h1]
      exact List.mem_append_right _ (by simp)
    have := start_list_fail preL m1 fid fa (postL.map Prod.fst) hlkpre hlkf hfa
    unfold AgentManager.start_agents
    rw [hids]
    exact this
  · have hsub : (preA ++ [gid]).Sublist (preA ++ gid :: postA) :=
      (List.Sublist.cons₂ gid (List.nil_sublist postA)).append_left preA
    have hnd3 : (preA ++ [gid]).Nodup := by
      apply List.Nodup.sublist hsub
      rw [← h2]
      exact hnd2
    have hpre3 : ∀ id ∈ preA,
        id ∈ m2.active ∧ ∃ a, m2.agents.lookup id = some a ∧ a.cleanupOk = true := by
      intro id hid
      refine ⟨?_, hpre2 id hid⟩
      rw [h2]
      exact List.mem_append_left _ hid
    have hgact : gid ∈ m2.active := by
      rw [h2]
      exact List.mem_append_right _ (by simp)
    have := stop_list_fail preA m2 gid ga postA hnd3 hpre3 hgact hga hgac
    unfold AgentManager.stop_agents
    rw [h2]
    exact this

/-- A registry where the middle agent fails to initialise. -/
def mC2start : AgentManager :=
  { agents := [("p", ⟨true, true, 0⟩), ("f", ⟨false, true, 1⟩), ("q", ⟨true, true, 2⟩)],
    active := [] }

/-- A registry where the middle active agent fails to clean up. -/
def mC2stop : AgentManager :=
  { agents := [("p", ⟨true, true, 0⟩), ("f", ⟨true, false, 1⟩), ("q", ⟨true, true, 2⟩)],
    active := ["p", "f", "q"] }

/-- Witness for the amended claim C2 on concrete three-agent registries:
the batch attempts `"p"` then `"f"`, never `"q"`, and propagates the
failure. -/
theorem C2_batch_aborts_witness :
    (mC2start.start_agents.1 = ["p", "f"] ∧
      mC2start.start_agents.2.2 = some .initFailed) ∧
    (mC2stop.stop_agents.1 = ["p", "f"] ∧
      mC2stop.stop_agents.2.2 = some .cleanupFailed) := by
  have h := C2_batch_aborts_on_first_failure mC2start mC2stop
    [("p", ⟨true, true, 0⟩)] [("q", ⟨true, true, 2⟩)] "f" ⟨false, true, 1⟩
    ["p"] ["q"] "f" ⟨true, false, 1⟩
    rfl (by decide)
    (by intro pa hpa; simp only [List.mem_singleton] at hpa; subst hpa; rfl)
    rfl
    rfl (by decide)
    (by intro id hid; simp at hid; subst hid; exact ⟨⟨true, true, 0⟩, by decide, rfl⟩)
    (by decide) rfl
  simpa using h

/-- A registry with a single registered, already-active agent. -/
def mC5 : AgentManager :=
  { agents := [("a", ⟨true, true, 5⟩)], active := ["a"] }

/-- Claim C5 counterexample: agent `"a"` is already active, yet
`start_agent "a"` invokes `initialize()` again — the method has no
already-active check, so the call is not a no-op on the agent. -/
theorem C5_counterexample :
    "a" ∈ mC5.active ∧ (mC5.start_agent "a").1 = ["a"] := by
  decide

/-- Claim C5 (amended): `start_agent` on an already-active registered
agent re-invokes `initialize()`; when that call succeeds, no error is
raised and the registry and active set are left unchanged. -/
theorem C5_start_active_reinitializes (m : AgentManager) (id : String) (a : Agent)
    (hact : id ∈ m.active) (hl : m.agents.lookup id = some a) (hok : a.initOk = true) :
    m.start_agent id = ([id], m, none) := by
  unfold AgentManager.start_agent
  rw [hl]
  simp [hok, activeAdd, hact]

/-- Witness for the amended claim C5: starting the active agent `"a"`
again invokes `initialize()` once more, succeeds, and leaves the
manager unchanged. -/
theorem C5_start_active_witness : mC5.start_agent "a" = (["a"], mC5, none) :=
  C5_start_active_reinitializes mC5 "a" ⟨true, true, 5⟩ (by decide) (by decide) rfl

/-- A registry with one registered agent that is not active. -/
def mC8 : AgentManager :=
  { agents := [("a", ⟨true, true, 7⟩)], active := [] }

/-- Claim C8 counterexample: the active set is empty, yet `get_states`
still returns the inactive registered agent `"a"` with its state — the
method iterates over the full registry, not over the active set. -/
theorem C8_counterexample :
    mC8.active = [] ∧ mC8.get_states = [("a", 7)] := by
  decide

lemma lookup_map_state (l : List (String × Agent)) (id : String) :
    (l.map (fun p => (p.1, p.2.state))).lookup id = (l.lookup id).map Agent.state := by
  induction l with
  | nil => rfl
  | cons p t ih =>
    cases hb : (id == p.1) <;> simp [List.lookup, hb, ih]

/-- Claim C8 (amended): `get_states` returns one entry for every
registered agent whether active or not, mapping each identity to that
agent's exported state. -/
theorem C8_snapshot_covers_registry (m : AgentManager) (id : String) :
    (m.get_states.map Prod.fst = m.agents.map Prod.fst) ∧
    m.get_states.lookup id = (m.agents.lookup id).map Agent.state := by
  constructor
  · simp [AgentManager.get_states]
  · exact lookup_map_state m.agents id

/-- A registry with a single active agent whose `cleanup()` raises. -/
def mC10 : AgentManager :=
  { agents := [("a", ⟨true, false, 3⟩)], active := ["a"] }

/-- Claim C10: when `cleanup()` raises during `stop_agent`, the
exception propagates to the caller, `cleanup()` was invoked, and the
manager is unchanged — in particular the identity is still in the
active set, because the removal happens only after `cleanup()`
returns. -/
theorem C10_stop_cleanup_failure_preserves_state (m : AgentManager) (id : String) (a : Agent)
    (hact : id ∈ m.active) (hl : m.agents.lookup id = some a) (hfail : a.cleanupOk = false) :
    m.stop_agent id = ([id], m, some .cleanupFailed) := by
  unfold AgentManager.stop_agent
  rw [if_pos hact, hl]
  simp [hfail]

/-- Witness for claim C10: stopping active agent `"a"` whose `cleanup()`
raises leaves the manager unchanged and surfaces the error. -/
theorem C10_stop_cleanup_failure_witness :
    mC10.stop_agent "a" = (["a"], mC10, some .cleanupFailed) :=
  C10_stop_cleanup_failure_preserves_state mC10 "a" ⟨true, false, 3⟩
    (by decide) (by decide) rfl

end Blossom
